import Mathlib

/-!
Verification development for the `hit` package (mkopriva/hit, file `hit.go`),
a declarative assertion engine for HTTP API endpoints.  The Go source is
shallowly embedded below: maps are modelled as association lists (Go map
iteration order is unspecified; the claims proved here do not depend on a
particular linearization), `error` results as `Option String` or
`Except String`, and the byte streams handed to `io.Reader` as `String`.
-/

namespace Hit

/-! ## String helpers (shallow embeddings of Go stdlib behaviour) -/

/-- Concatenation of a list of strings, mirroring Go's `msg += ...`
accumulation loops. -/
def strConcat : List String → String
  | [] => ""
  | s :: t => s ++ strConcat t

/-- Does `pat` match at the head of `hay`?  (Go `strings.HasPrefix` on the
rune level; used only to build the substring test below.) -/
def leadMatch : List Char → List Char → Bool
  | [], _ => true
  | _ :: _, [] => false
  | a :: as, b :: bs => a == b && leadMatch as bs

/-- Substring containment on char lists (Go `strings.Contains`). -/
def hasSub : List Char → List Char → Bool
  | hay, pat =>
    match hay with
    | [] => leadMatch pat []
    | _ :: t => leadMatch pat hay || hasSub t pat

/-- Go `strings.Contains(hay, pat)`. -/
def strContains (hay pat : String) : Bool :=
  hasSub hay.data pat.data

/-- ANSI color values from hit.go. -/
def RedColor : String := "\x1b[91m"

/-- Yellow ANSI color value from hit.go. -/
def YellowColor : String := "\x1b[93m"

/-- Terminal color reset value from hit.go. -/
def StopColor : String := "\x1b[0m"

/-- Go `fmt` `%q` rendering of a string.  The claims only exercise keys and
values without characters needing escapes, so plain quoting suffices. -/
def goQuote (s : String) : String := "\"" ++ s ++ "\""

/-! ## Canonical MIME header keys (Go `textproto.CanonicalMIMEHeaderKey`) -/

/-- Valid header field byte per Go `textproto` (token characters). -/
def validHdrByte (c : Char) : Bool :=
  c.isAlpha || c.isDigit ||
  "!#$%&*+-.^_|~".data.contains c || c == Char.ofNat 39 || c == Char.ofNat 96

/-- Lexicographic byte-order comparison of strings (what Go's `<` on
strings and `sort.Strings` use; UTF-8 makes code-point order coincide with
byte order). -/
def strLtL : List Char → List Char → Bool
  | [], [] => false
  | [], _ :: _ => true
  | _ :: _, [] => false
  | a :: as, b :: bs =>
    decide (a.toNat < b.toNat) || (a == b && strLtL as bs)

/-- Strict order on strings. -/
def strLt (a b : String) : Bool := strLtL a.data b.data

/-- Reflexive order on strings. -/
def strLe (a b : String) : Bool := !strLt b a

/-- Core canonicalization loop: uppercase a letter at the start of a word
(start of string or right after a dash), lowercase it otherwise. -/
def canonList : Bool → List Char → List Char
  | _, [] => []
  | up, c :: cs =>
    let c2 := if up then c.toUpper else c.toLower
    c2 :: canonList (c == '-') cs

/-- Go `textproto.CanonicalMIMEHeaderKey`: returns the input unchanged when
it holds an invalid header byte, otherwise canonicalizes word casing. -/
def canonicalKey (s : String) : String :=
  if s.data.all validHdrByte then ⟨canonList true s.data⟩ else s

/-! ## Header model

`http.Header` / `hit.Header` are maps from field name to value slice; we
model them as association lists.  Observed response headers produced by Go's
HTTP machinery are canonically keyed. -/

abbrev HdrMap := List (String × List String)

/-- First-match association lookup (a Go map holds each key once). -/
def hdrLookup : HdrMap → String → Option (List String)
  | [], _ => none
  | (k, vs) :: t, q => if k = q then some vs else hdrLookup t q

/-- Go `http.Header.Get`: canonicalize the query key, look it up, and return
the first value, or `""` when the key is absent or has no values. -/
def hdrGet (hh : HdrMap) (k : String) : String :=
  match hdrLookup hh (canonicalKey k) with
  | some (v :: _) => v
  | _ => ""

/-- Go `http.Header.Add` (`textproto.MIMEHeader.Add`): canonicalize the key
and append the value to that key's slice, creating the entry if needed.
`hdrAddRaw` takes an already-canonicalized key. -/
def hdrAddRaw : HdrMap → String → String → HdrMap
  | [], k, v => [(k, [v])]
  | (k2, vs) :: t, k, v =>
    if k2 = k then (k2, vs ++ [v]) :: t else (k2, vs) :: hdrAddRaw t k v

/-- Go `http.Header.Add`. -/
def hdrAdd (rh : HdrMap) (k v : String) : HdrMap :=
  hdrAddRaw rh (canonicalKey k) v

/-- Go `http.Header.Set` (`textproto.MIMEHeader.Set`): canonicalize the key
and replace its value slice with the singleton. -/
def hdrSetRaw : HdrMap → String → String → HdrMap
  | [], k, v => [(k, [v])]
  | (k2, vs) :: t, k, v =>
    if k2 = k then (k2, [v]) :: t else (k2, vs) :: hdrSetRaw t k v

/-- Go `http.Header.Set`. -/
def hdrSet (rh : HdrMap) (k v : String) : HdrMap :=
  hdrSetRaw rh (canonicalKey k) v

/-- First expected value of an expectation entry (the Go source's `v[0]`,
which panics on an empty value slice; `headD ""` models it on all slices a
caller can build without a panic — headers written as literals always carry
a value). -/
def firstVal (vs : List String) : String := vs.headD ""

/-- One mismatch line of `Header.Compare`
(`"Header[%q] got = %s%q%s, want = %s%q%s\n"`). -/
def headerLine (k val want : String) : String :=
  "Header[" ++ goQuote k ++ "] got = " ++ RedColor ++ goQuote val ++
    StopColor ++ ", want = " ++ RedColor ++ goQuote want ++ StopColor ++ "\n"

/-- The per-entry check of `Header.Compare`: compare the case-insensitive
first observed value against the entry's first expected value and produce a
mismatch line when they differ.  The Go source indexes `v[0]`, which panics
on an empty value slice; `headD ""` models it on all slices a caller can
build without a panic (headers written as literals always carry a value). -/
def entryMsg (hh : HdrMap) (p : String × List String) : Option String :=
  let val := hdrGet hh p.1
  let want := firstVal p.2
  if val = want then none else some (headerLine p.1 val want)

/-- Go `hit.Header.Compare`: accumulate one line per mismatching expectation
key; return an error exactly when the accumulated message is nonempty. -/
def Header.Compare (h : HdrMap) (hh : HdrMap) : Option String :=
  let msg := strConcat (h.filterMap (entryMsg hh))
  if msg = "" then none else some msg

/-- Go `hit.Header.AddTo` inner loop: add every value of one key. -/
def addVals (k : String) : List String → HdrMap → HdrMap
  | [], rh => rh
  | v :: vs, rh => addVals k vs (hdrAdd rh k v)

/-- Go `hit.Header.AddTo`: add every value of every key of the receiver to
the request's header. -/
def Header.AddTo (h : HdrMap) (rh : HdrMap) : HdrMap :=
  match h with
  | [] => rh
  | (k, vs) :: t => Header.AddTo t (addVals k vs rh)

/-! ## JSON values

`JSONBody` is Go's `map[string]interface{}`; the values a test author can
place in it are modelled by `GoVal` (strings, integers, booleans, null,
nested sequences and mappings — the JSON-marshalable literals the package's
own tests use).  `JVal` is the result of generic decoding with
`json.Decoder.UseNumber`: numbers are kept as their raw token
(`json.Number`), never converted to float64, and every decoded object is a
`map[string]interface{}`, modelled canonically as a key-sorted,
duplicate-free field list so that list equality coincides with Go map
equality under `reflect.DeepEqual`. -/

inductive GoVal
  | str (s : String)
  | int (n : Int)
  | bool (b : Bool)
  | null
  | arr (xs : List GoVal)
  | obj (fields : List (String × GoVal))

inductive JVal
  | str (s : String)
  | num (tok : String)
  | bool (b : Bool)
  | null
  | arr (xs : List JVal)
  | obj (fields : List (String × JVal))

mutual

/-- Structural equality on decoded values: Go `reflect.DeepEqual` on the
generic values produced by the decoder (`json.Number`s compare as their
token strings; objects are in canonical form, so field-list equality is map
equality). -/
def jvalEq : JVal → JVal → Bool
  | .str a, .str b => a == b
  | .num a, .num b => a == b
  | .bool a, .bool b => a == b
  | .null, .null => true
  | .arr a, .arr b => jvalListEq a b
  | .obj a, .obj b => jvalFieldsEq a b
  | _, _ => false

/-- Element-wise, order-sensitive equality of decoded sequences. -/
def jvalListEq : List JVal → List JVal → Bool
  | [], [] => true
  | a :: as, b :: bs => jvalEq a b && jvalListEq as bs
  | _, _ => false

/-- Key-by-key equality of canonical decoded objects. -/
def jvalFieldsEq : List (String × JVal) → List (String × JVal) → Bool
  | [], [] => true
  | (k, v) :: as, (k2, v2) :: bs => k == k2 && jvalEq v v2 && jvalFieldsEq as bs
  | _, _ => false

end

/-- Go `reflect.DeepEqual` between the two decoded
`map[string]interface{}` values. -/
def mapEq (a b : List (String × JVal)) : Bool := jvalFieldsEq a b

/-! ### Go JSON encoding (`encoding/json.Marshal`) -/

/-- Lowercase hex digit. -/
def hexDigit (n : Nat) : Char :=
  if n < 10 then Char.ofNat (48 + n) else Char.ofNat (87 + n)

/-- Go JSON string escaping: quote, backslash, the common control escapes,
`\u00XX` for other control bytes, and the HTML-safe `<`/`>`/
`&` for angle brackets and ampersand (Go's default encoder). -/
def encStrChar (c : Char) : List Char :=
  if c == '"' then ['\\', '"']
  else if c == '\\' then ['\\', '\\']
  else if c == '\n' then ['\\', 'n']
  else if c == '\r' then ['\\', 'r']
  else if c == '\t' then ['\\', 't']
  else if c == '<' then "\\u003c".data
  else if c == '>' then "\\u003e".data
  else if c == '&' then "\\u0026".data
  else if c.toNat < 32 then
    ['\\', 'u', '0', '0', hexDigit (c.toNat / 16), hexDigit (c.toNat % 16)]
  else [c]

/-- Encoded JSON string literal, quotes included. -/
def encStr (s : String) : String :=
  "\"" ++ ⟨s.data.flatMap encStrChar⟩ ++ "\""

/-- Insert a rendered object field into a key-sorted list (Go's `Marshal`
emits map keys in sorted order). -/
def insField (k : String) (s : String) :
    List (String × String) → List (String × String)
  | [] => [(k, s)]
  | (k2, s2) :: t =>
    if strLt k k2 then (k, s) :: (k2, s2) :: t else (k2, s2) :: insField k s t

/-- Sort rendered fields by key. -/
def sortFields : List (String × String) → List (String × String)
  | [] => []
  | (k, s) :: t => insField k s (sortFields t)

/-- Comma-join rendered items. -/
def commaJoin : List String → String
  | [] => ""
  | [s] => s
  | s :: t => s ++ "," ++ commaJoin t

mutual

/-- Go `json.Marshal` on the modelled literal values: strings escaped,
integers in decimal, arrays in element order, map keys sorted. -/
def jsonEncode : GoVal → String
  | .str s => encStr s
  | .int n => toString n
  | .bool true => "true"
  | .bool false => "false"
  | .null => "null"
  | .arr xs => "[" ++ commaJoin (encItems xs) ++ "]"
  | .obj m =>
    "\x7b" ++
      commaJoin ((sortFields (encFields m)).map
        (fun p => encStr p.1 ++ ":" ++ p.2)) ++ "\x7d"

/-- Rendered array elements. -/
def encItems : List GoVal → List String
  | [] => []
  | v :: t => jsonEncode v :: encItems t

/-- Rendered object fields (keys paired with rendered values). -/
def encFields : List (String × GoVal) → List (String × String)
  | [] => []
  | (k, v) :: t => (k, jsonEncode v) :: encFields t

end

/-! ### Go JSON decoding with `UseNumber`
(`json.Decoder.Decode` into `map[string]interface{}`) -/

/-- Skip JSON whitespace. -/
def skipWs : List Char → List Char
  | c :: cs =>
    if c == ' ' || c == '\t' || c == '\n' || c == '\r' then skipWs cs
    else c :: cs
  | [] => []

/-- Greedily take decimal digits. -/
def takeDigits : List Char → List Char × List Char
  | c :: cs =>
    if c.isDigit then
      let (d, r) := takeDigits cs
      (c :: d, r)
    else ([], c :: cs)
  | [] => ([], [])

/-- Parse the integer part of a JSON number (`0` or a nonzero digit followed
by digits; leading zeros are a syntax error, as in Go). -/
def parseIntPart : List Char → Except String (List Char × List Char)
  | c :: cs =>
    if c == '0' then .ok (['0'], cs)
    else if c.isDigit then
      let (d, r) := takeDigits cs
      .ok (c :: d, r)
    else .error "invalid character in numeric literal"
  | [] => .error "unexpected end of JSON input"

/-- Parse the optional fraction part. -/
def parseFrac : List Char → Except String (List Char × List Char)
  | '.' :: cs =>
    match takeDigits cs with
    | ([], _) => .error "invalid character after decimal point"
    | (d, r) => .ok ('.' :: d, r)
  | p => .ok ([], p)

/-- Parse the optional exponent part. -/
def parseExp : List Char → Except String (List Char × List Char)
  | c :: cs =>
    if c == 'e' || c == 'E' then
      match cs with
      | s :: cs2 =>
        if s == '+' || s == '-' then
          match takeDigits cs2 with
          | ([], _) => .error "invalid character in exponent"
          | (d, r) => .ok (c :: s :: d, r)
        else
          match takeDigits cs with
          | ([], _) => .error "invalid character in exponent"
          | (d, r) => .ok (c :: d, r)
      | [] => .error "unexpected end of JSON input"
    else .ok ([], c :: cs)
  | [] => .ok ([], [])

/-- Parse a JSON number, returning its raw token (the `json.Number`). -/
def parseNum (p : List Char) : Except String (String × List Char) := do
  let (sign, p1) :=
    match p with
    | '-' :: cs => (['-'], cs)
    | _ => (([] : List Char), p)
  let (ip, p2) ← parseIntPart p1
  let (fp, p3) ← parseFrac p2
  let (ep, p4) ← parseExp p3
  .ok (⟨sign ++ ip ++ fp ++ ep⟩, p4)

/-- Decode a `\uXXXX` hex quadruple. -/
def hexVal (c : Char) : Except String Nat :=
  if c.isDigit then .ok (c.toNat - 48)
  else if 'a' ≤ c && c ≤ 'f' then .ok (c.toNat - 87)
  else if 'A' ≤ c && c ≤ 'F' then .ok (c.toNat - 55)
  else .error "invalid character in string escape"

/-- Parse the body of a JSON string after the opening quote, handling the
standard escapes (surrogate pairs are decoded as two separate code points;
the claims exercise no such input). -/
def parseStrChars : List Char → Except String (List Char × List Char)
  | [] => .error "unexpected end of JSON input"
  | '"' :: cs => .ok ([], cs)
  | '\\' :: e :: cs =>
    if e == 'u' then
      match cs with
      | a :: b :: c :: d :: cs2 => do
        let ha ← hexVal a
        let hb ← hexVal b
        let hc ← hexVal c
        let hd ← hexVal d
        let n := ((ha * 16 + hb) * 16 + hc) * 16 + hd
        let (r, rest) ← parseStrChars cs2
        .ok ((if n.isValidChar then Char.ofNat n else Char.ofNat 0xFFFD) :: r, rest)
      | _ => .error "unexpected end of JSON input"
    else do
      let c2 ←
        if e == '"' then pure '"'
        else if e == '\\' then pure '\\'
        else if e == '/' then pure '/'
        else if e == 'b' then pure (Char.ofNat 8)
        else if e == 'f' then pure (Char.ofNat 12)
        else if e == 'n' then pure '\n'
        else if e == 'r' then pure '\r'
        else if e == 't' then pure '\t'
        else .error "invalid character in string escape"
      let (r, rest) ← parseStrChars cs
      .ok (c2 :: r, rest)
  | c :: cs =>
    if c.toNat < 32 then .error "invalid character in string literal"
    else do
      let (r, rest) ← parseStrChars cs
      .ok (c :: r, rest)

/-- Insert a decoded field into a canonical (key-sorted) object, a later
duplicate key overwriting the earlier one, exactly as repeated keys
overwrite in a Go map. -/
def objInsert : List (String × JVal) → String → JVal → List (String × JVal)
  | [], k, v => [(k, v)]
  | (k2, v2) :: t, k, v =>
    if k == k2 then (k, v) :: t
    else if strLt k k2 then (k, v) :: (k2, v2) :: t
    else (k2, v2) :: objInsert t k v

/-- Canonicalize a decoded field list into the Go-map form. -/
def objCanon (fs : List (String × JVal)) : List (String × JVal) :=
  fs.foldl (fun acc p => objInsert acc p.1 p.2) []

/-- Expect a literal keyword tail (`rue`, `alse`, `ull`). -/
def expectLit : List Char → List Char → Except String (List Char)
  | [], p => .ok p
  | c :: cs, p =>
    match p with
    | d :: ds =>
      if c == d then expectLit cs ds
      else .error "invalid character in literal"
    | [] => .error "unexpected end of JSON input"

mutual

/-- Parse one JSON value.  `fuel` only bounds the recursion depth for
termination; callers pass at least the input length plus one, which a parse
can never exhaust since every nested value consumes a character first. -/
def parseVal (fuel : Nat) (p : List Char) : Except String (JVal × List Char) :=
  match fuel with
  | 0 => .error "value nesting exceeds fuel"
  | fuel + 1 =>
    match skipWs p with
    | [] => .error "unexpected end of JSON input"
    | c :: cs =>
      if c == '"' then do
        let (s, r) ← parseStrChars cs
        .ok (.str ⟨s⟩, r)
      else if c == 't' then do
        let r ← expectLit "rue".data cs
        .ok (.bool true, r)
      else if c == 'f' then do
        let r ← expectLit "alse".data cs
        .ok (.bool false, r)
      else if c == 'n' then do
        let r ← expectLit "ull".data cs
        .ok (.null, r)
      else if c == '[' then
        match skipWs cs with
        | ']' :: r => .ok (.arr [], r)
        | p2 => do
          let (xs, r) ← parseArrItems fuel p2
          .ok (.arr xs, r)
      else if c == Char.ofNat 123 then
        match skipWs cs with
        | c2 :: r =>
          if c2 == Char.ofNat 125 then .ok (.obj [], r)
          else do
            let (fs, r2) ← parseObjFields fuel (c2 :: r)
            .ok (.obj (objCanon fs), r2)
        | [] => .error "unexpected end of JSON input"
      else do
        let (tok, r) ← parseNum (c :: cs)
        .ok (.num tok, r)

/-- Parse the comma-separated items of a nonempty array, up to and including
the closing bracket. -/
def parseArrItems (fuel : Nat) (p : List Char) :
    Except String (List JVal × List Char) :=
  match fuel with
  | 0 => .error "value nesting exceeds fuel"
  | fuel + 1 => do
    let (v, r) ← parseVal fuel p
    match skipWs r with
    | ',' :: r2 => do
      let (vs, r3) ← parseArrItems fuel r2
      .ok (v :: vs, r3)
    | ']' :: r2 => .ok ([v], r2)
    | _ => .error "invalid character after array element"

/-- Parse the fields of a nonempty object, up to and including the closing
brace. -/
def parseObjFields (fuel : Nat) (p : List Char) :
    Except String (List (String × JVal) × List Char) :=
  match fuel with
  | 0 => .error "value nesting exceeds fuel"
  | fuel + 1 =>
    match skipWs p with
    | '"' :: cs => do
      let (k, r) ← parseStrChars cs
      match skipWs r with
      | ':' :: r2 => do
        let (v, r3) ← parseVal fuel r2
        match skipWs r3 with
        | ',' :: r4 => do
          let (fs, r5) ← parseObjFields fuel r4
          .ok ((⟨k⟩, v) :: fs, r5)
        | c :: r4 =>
          if c == Char.ofNat 125 then .ok ([(⟨k⟩, v)], r4)
          else .error "invalid character after object value"
        | [] => .error "unexpected end of JSON input"
      | _ => .error "invalid character after object key"
    | _ => .error "invalid character looking for object key"

end

/-- Go `json.Decoder.Decode` with `UseNumber` into a freshly made
`map[string]interface{}`: a stream holding only whitespace yields `io.EOF`,
which the callers in hit.go tolerate, leaving the map empty; a top-level
`null` leaves the map untouched; a top-level object fills it; any other
top-level value is an unmarshal type error; malformed input is a syntax
error.  Data trailing the first value is left unread, as with Go's
`Decoder.Decode`. -/
def decodeMap (s : String) : Except String (List (String × JVal)) :=
  match skipWs s.data with
  | [] => .ok []
  | p =>
    match parseVal (p.length + 1) p with
    | .error e => .error e
    | .ok (v, _) =>
      match v with
      | .obj fs => .ok fs
      | .null => .ok []
      | _ => .error "json: cannot unmarshal value into map[string]interface"

/-! ## JSONBody -/

/-- Go `hit.JSONBody` (`map[string]interface{}`). -/
abbrev JSONBody := List (String × GoVal)

/-- Go `json.Marshal` of a `JSONBody` (a map marshals as an object with
sorted keys). -/
def jsonMarshal (b : JSONBody) : String := jsonEncode (GoVal.obj b)

/-- Go `hit.JSONBody.Body`: marshal the receiver.  Marshalling the modelled
literal values never fails, so the `error` branch of the Go code is
unreachable here. -/
def JSONBody.Body (b : JSONBody) : Except String String := .ok (jsonMarshal b)

/-- Go `hit.JSONBody.Type`. -/
def JSONBody.Type : String := "application/json"

/-- The distinct error outcomes of `JSONBody.Compare`: a decode fault on the
observed stream, a decode fault on the expectation's own encoded form, or a
structural value mismatch. -/
inductive JCmpErr
  | decodeGot (e : String)
  | decodeWant (e : String)
  | mismatch (got want : List (String × JVal))

mutual

/-- Go-style `%v` rendering of a decoded value, used only inside mismatch
messages (Go renders `%#v` of a map, whose iteration order is unspecified;
this model renders the canonical order). -/
def jvalShow : JVal → String
  | .str s => goQuote s
  | .num tok => tok
  | .bool true => "true"
  | .bool false => "false"
  | .null => "interface \x7b\x7d(nil)"
  | .arr xs => "[]interface \x7b\x7d\x7b" ++ commaJoin (jvalShowList xs) ++ "\x7d"
  | .obj fs =>
    "map[string]interface \x7b\x7d\x7b" ++
      commaJoin (jvalShowFields fs) ++ "\x7d"

/-- Rendered sequence elements. -/
def jvalShowList : List JVal → List String
  | [] => []
  | v :: t => jvalShow v :: jvalShowList t

/-- Rendered object fields. -/
def jvalShowFields : List (String × JVal) → List String
  | [] => []
  | (k, v) :: t => (goQuote k ++ ":" ++ jvalShow v) :: jvalShowFields t

end

/-- Error message text of each `JSONBody.Compare` outcome, as built by the
source's `fmt.Errorf` calls. -/
def renderJCmpErr : JCmpErr → String
  | .decodeGot e => "hit: error decoding http.Response.Body. " ++ e
  | .decodeWant e => "hit: error decoding hit.Response.Bodyer. " ++ e
  | .mismatch got want =>
    "Body got " ++ RedColor ++ jvalShow (.obj got) ++ StopColor ++
      ", want " ++ RedColor ++ jvalShow (.obj want) ++ StopColor ++ "\n"

/-- Go `hit.JSONBody.Compare`: decode the observed stream and the
receiver's own marshalled form with `UseNumber` (an `io.EOF` on either side
is tolerated and leaves the corresponding map empty — that case is inside
`decodeMap`), then require `reflect.DeepEqual` of the two decoded maps; a
decode fault is surfaced as its own error, distinct from a mismatch. -/
def JSONBody.Compare (b : JSONBody) (r : String) : Option JCmpErr :=
  match decodeMap r with
  | .error e => some (.decodeGot e)
  | .ok got =>
    match decodeMap (jsonMarshal b) with
    | .error e => some (.decodeWant e)
    | .ok want => if mapEq got want then none else some (.mismatch got want)

/-! ## FormBody -/

/-- Go `hit.FormBody` (`map[string][]string`, i.e. `url.Values`). -/
abbrev FormBody := List (String × List String)

/-- Bytes that `url.QueryEscape` leaves unescaped: ASCII alphanumerics and
`-._~`. -/
def queryUnreserved (c : Char) : Bool :=
  c.isAlpha || c.isDigit || c == '-' || c == '_' || c == '.' || c == '~'

/-- UTF-8 bytes of a character (escaping works byte-wise in Go). -/
def utf8Bytes (c : Char) : List Nat :=
  let n := c.toNat
  if n < 0x80 then [n]
  else if n < 0x800 then [0xC0 + n / 64, 0x80 + n % 64]
  else if n < 0x10000 then
    [0xE0 + n / 4096, 0x80 + n / 64 % 64, 0x80 + n % 64]
  else
    [0xF0 + n / 262144, 0x80 + n / 4096 % 64, 0x80 + n / 64 % 64,
      0x80 + n % 64]

/-- Uppercase hex digit. -/
def hexDigitU (n : Nat) : Char :=
  if n < 10 then Char.ofNat (48 + n) else Char.ofNat (55 + n)

/-- Percent-encode one byte. -/
def pctByte (n : Nat) : List Char :=
  ['%', hexDigitU (n / 16), hexDigitU (n % 16)]

/-- Go `url.QueryEscape`: keep unreserved bytes, turn a space into `+`,
percent-encode everything else byte-wise. -/
def queryEscape (s : String) : String :=
  ⟨s.data.flatMap fun c =>
    if queryUnreserved c then [c]
    else if c == ' ' then ['+']
    else (utf8Bytes c).flatMap pctByte⟩

/-- Insert a string into a sorted list (Go `sort.Strings` of the key set). -/
def insStr (k : String) : List String → List String
  | [] => [k]
  | k2 :: t => if strLe k k2 then k :: k2 :: t else k2 :: insStr k t

/-- Sorted key list. -/
def sortStrs : List String → List String
  | [] => []
  | k :: t => insStr k (sortStrs t)

/-- Go `url.Values.Encode`: iterate the keys in sorted order, and for each
key emit `escape(k)=escape(v)` for its values in sequence order, joined by
ampersands.  (A Go map holds each key once; the association list is assumed
duplicate-free accordingly.) -/
def urlValuesEncode (b : FormBody) : String :=
  "&".intercalate
    ((sortStrs (b.map Prod.fst)).flatMap fun k =>
      ((hdrLookup b k).getD []).map fun v =>
        queryEscape k ++ "=" ++ queryEscape v)

/-- Go `hit.FormBody.Body`: serialize via `url.Values.Encode`; the error
result is always nil. -/
def FormBody.Body (b : FormBody) : Except String String :=
  .ok (urlValuesEncode b)

/-- Go `hit.FormBody.Type`. -/
def FormBody.Type : String := "application/x-www-form-urlencoded"

/-! ## MultipartBody -/

/-- Go `hit.File`: an uploaded file's media type, name, and contents. -/
structure File where
  type : String
  name : String
  contents : String

/-- A value stored in a `MultipartBody` field.  In Go the element type is
`interface{}`; `other` stands for any dynamic value that is neither a
`string` nor a `hit.File`, carrying the text `%T` renders for it. -/
inductive MpVal
  | str (s : String)
  | file (f : File)
  | other (typeName : String)

/-- Go `hit.MultipartBody` (`map[string][]interface{}`). -/
abbrev MultipartBody := List (String × List MpVal)

/-- The fixed multipart boundary token from hit.go. -/
def boundary : String := "testboundary"

/-- Go `hit.MultipartBody.Type`. -/
def MultipartBody.Type : String := "multipart/form-data; boundary=" ++ boundary

/-- Go's `escapeQuotes` (copied in hit.go from `mime/multipart`): escape
backslash and double quote. -/
def escapeQuotes (s : String) : String :=
  ⟨s.data.flatMap fun c =>
    if c == '\\' then ['\\', '\\']
    else if c == '"' then ['\\', '"']
    else [c]⟩

/-- The error `MultipartBody.Body` returns for a field value that is neither
a string nor a `hit.File`, naming the offending key (`%q`) and the value's
dynamic type (`%T`). -/
def mpFieldErr (k ty : String) : String :=
  "hit: " ++ goQuote k ++ " containts unsupported type " ++ ty ++
    ". Please use only strings or hit.Files inside MultipartBody."

/-- The headers-plus-content block of one multipart part, without the
boundary line: `multipart.Writer.WriteField` for a string (one
Content-Disposition header), `CreatePart` plus `io.Copy` for a file
(Content-Disposition then Content-Type, the writer emitting header keys in
sorted order). -/
def mpPart (k : String) : MpVal → Except String String
  | .str s =>
    .ok ("Content-Disposition: form-data; name=\"" ++ escapeQuotes k ++
      "\"\r\n\r\n" ++ s)
  | .file f =>
    .ok ("Content-Disposition: form-data; name=\"" ++ escapeQuotes k ++
      "\"; filename=\"" ++ escapeQuotes f.name ++ "\"\r\n" ++
      "Content-Type: " ++ f.type ++ "\r\n\r\n" ++ f.contents)
  | .other ty => .error (mpFieldErr k ty)

/-- Field/value pairs of a `MultipartBody` in traversal order. -/
def flattenMp (b : MultipartBody) : List (String × MpVal) :=
  b.flatMap fun p => p.2.map fun v => (p.1, v)

/-- Serialize the parts: `multipart.Writer.CreatePart` writes
`--boundary\r\n` before the first part and `\r\n--boundary\r\n` before each
later one; an unsupported value aborts with its error. -/
def mpParts : List (String × MpVal) → Bool → Except String String
  | [], _ => .ok ""
  | (k, v) :: t, first => do
    let pre :=
      (if first then "--" else "\r\n--") ++ boundary ++ "\r\n"
    let body ← mpPart k v
    let rest ← mpParts t false
    .ok (pre ++ body ++ rest)

/-- Go `hit.MultipartBody.Body`: write every part with the fixed boundary,
then `Writer.Close` appends the closing `\r\n--boundary--\r\n`. -/
def MultipartBody.Body (b : MultipartBody) : Except String String :=
  (mpParts (flattenMp b) true).map (· ++ "\r\n--" ++ boundary ++ "--\r\n")

/-! ## Response -/

/-- Go `hit.Response`: the expectation (status, optional header subset,
optional JSON body).  `Header` and `Body` are nilable maps in Go; `none`
models nil. -/
structure ResponseExp where
  status : Int
  header : Option HdrMap
  body : Option JSONBody

/-- An observed `http.Response`, trimmed to the parts hit.go reads: status
code, canonically-keyed header, and the body stream's bytes. -/
structure RespObs where
  status : Int
  header : HdrMap
  body : String

/-- The status mismatch line
(`"StatusCode got = %s%d%s, want %s%d%s\n"`). -/
def statusLine (got want : Int) : String :=
  "StatusCode got = " ++ RedColor ++ toString got ++ StopColor ++
    ", want " ++ RedColor ++ toString want ++ StopColor ++ "\n"

/-- Go `hit.Response.CompareStatus`: integer equality, with a formatted
error on mismatch. -/
def Response.CompareStatus (r : ResponseExp) (status : Int) : Option String :=
  if status ≠ r.status then some (statusLine status r.status) else none

/-- The status fragment of the aggregated message. -/
def statusPart (r : ResponseExp) (res : RespObs) : String :=
  (Response.CompareStatus r res.status).getD ""

/-- The header fragment of the aggregated message (empty when no header
expectation is present). -/
def headerPart (r : ResponseExp) (res : RespObs) : String :=
  match r.header with
  | some h => (Header.Compare h res.header).getD ""
  | none => ""

/-- The body fragment of the aggregated message (empty when no body
expectation is present). -/
def bodyPart (r : ResponseExp) (res : RespObs) : String :=
  match r.body with
  | some b =>
    match JSONBody.Compare b res.body with
    | some e => renderJCmpErr e
    | none => ""
  | none => ""

/-- Go `hit.Response.Compare`: run the status check, the header check when a
header expectation is present, and the body check when a body expectation is
present, concatenating every failure message; return an error exactly when
the concatenation is nonempty. -/
def Response.Compare (r : ResponseExp) (res : RespObs) : Option String :=
  let msg := statusPart r res ++ headerPart r res ++ bodyPart r res
  if msg = "" then none else some msg

/-! ## Request and Execute -/

/-- The polymorphic `hit.Bodyer` interface: the three body payload
variants. -/
inductive Bodyer
  | json (b : JSONBody)
  | form (b : FormBody)
  | multipart (b : MultipartBody)

/-- Dispatch of the interface's `Body()` method. -/
def Bodyer.body : Bodyer → Except String String
  | .json b => JSONBody.Body b
  | .form b => FormBody.Body b
  | .multipart b => MultipartBody.Body b

/-- Dispatch of the interface's `Type()` method. -/
def Bodyer.typeOf : Bodyer → String
  | .json _ => JSONBody.Type
  | .form _ => FormBody.Type
  | .multipart _ => MultipartBody.Type

/-- Go `hit.Request`: caller headers, optional body payload, expected
response. -/
structure RequestD where
  header : Option HdrMap
  body : Option Bodyer
  want : ResponseExp

/-- The TCP address requests are built against (`hit.Addr`'s default). -/
def Addr : String := "localhost:3456"

/-- The message of `errRedirect` (`"just a redirect"`). -/
def errRedirect : String := "just a redirect"

/-- Go `hit.isRedirectError`: true when the error's message contains
`errRedirect`'s message as a substring. -/
def isRedirectError (e : String) : Bool := strContains e errRedirect

/-- The outbound request handed to the transport: method, URL, header set,
optional encoded body. -/
structure HttpReqM where
  method : String
  url : String
  header : HdrMap
  body : Option String

/-- What Go's `http.Client.Do` hands back: possibly a response, possibly an
error (on a refused redirect, both). -/
structure TranResult where
  resp : Option RespObs
  err : Option String

/-- The outcome of one `Request.Execute` call: a body-encoding error
returned before any request is built, a run-aborting fatal condition
(`log.Fatalf`, or the crash a nil response would cause), a comparison
failure (the returned wrapped error), or success. -/
inductive ExecResult
  | bodyError (e : String)
  | fatal
  | failure (msg : String)
  | success

mutual

/-- Go-style `%v` rendering of a literal body value, used only inside the
contextual failure message. -/
def goValShow : GoVal → String
  | .str s => s
  | .int n => toString n
  | .bool true => "true"
  | .bool false => "false"
  | .null => "<nil>"
  | .arr xs => "[" ++ " ".intercalate (goValShowList xs) ++ "]"
  | .obj fs => "map[" ++ " ".intercalate (goValShowFields fs) ++ "]"

/-- Rendered sequence elements. -/
def goValShowList : List GoVal → List String
  | [] => []
  | v :: t => goValShow v :: goValShowList t

/-- Rendered mapping entries. -/
def goValShowFields : List (String × GoVal) → List String
  | [] => []
  | (k, v) :: t => (k ++ ":" ++ goValShow v) :: goValShowFields t

end

/-- Go `%v` of a header map. -/
def hdrShow (h : HdrMap) : String :=
  "map[" ++
    " ".intercalate
      (h.map fun p => p.1 ++ ":[" ++ " ".intercalate p.2 ++ "]") ++ "]"

/-- Go `%v` of a body payload (all three variants print as Go maps). -/
def bodyerShow : Bodyer → String
  | .json b => goValShow (.obj b)
  | .form b =>
    "map[" ++
      " ".intercalate
        (b.map fun p => p.1 ++ ":[" ++ " ".intercalate p.2 ++ "]") ++ "]"
  | .multipart b =>
    "map[" ++
      " ".intercalate
        (b.map fun p =>
          p.1 ++ ":[" ++
            " ".intercalate
              (p.2.map fun v =>
                match v with
                | .str s => s
                | .file f => "\x7b" ++ f.type ++ " " ++ f.name ++ " " ++
                    f.contents ++ "\x7d"
                | .other ty => "<" ++ ty ++ ">") ++ "]") ++ "]"

/-- The contextual line `Execute` prepends to a comparison failure, naming
the method, path, caller header, and (when present) the caller body. -/
def reqContext (r : RequestD) (method path : String) : String :=
  " " ++ YellowColor ++ method ++ " " ++ path ++ StopColor ++
    " Header: " ++ YellowColor ++
    (match r.header with
     | some h => hdrShow h
     | none => "map[]") ++ StopColor ++
    (match r.body with
     | some b => " Body: " ++ YellowColor ++ bodyerShow b ++ StopColor
     | none => "")

/-- The comparison stage of `Execute`: compare the observed response to the
expectation; a failure is wrapped with the contextual line.  A nil response
(possible only on a transport error) would crash the process dereferencing
`res.Body`, modelled as the run-aborting outcome. -/
def compareStage (r : RequestD) (method path : String) :
    Option RespObs → ExecResult
  | some res =>
    match Response.Compare r.want res with
    | some cerr => .failure (reqContext r method path ++ "\n" ++ cerr)
    | none => .success
  | none => .fatal

/-- The post-encoding stages of `Execute`: build the outbound request
(Content-Type from the body's declared type when a body is present, then
every caller header value added), dispatch it, treat a non-redirect
transport error as fatal to the run (`log.Fatalf`), and otherwise compare
the observed response. -/
def execAfterBody (transport : HttpReqM → TranResult) (r : RequestD)
    (method path : String) (bodyCt : Option (String × String)) : ExecResult :=
  let hdr0 : HdrMap :=
    match bodyCt with
    | some (_, t) => hdrSet [] "Content-Type" t
    | none => []
  let hdr1 :=
    match r.header with
    | some h => Header.AddTo h hdr0
    | none => hdr0
  let req : HttpReqM :=
    { method := method, url := "http://" ++ Addr ++ path,
      header := hdr1, body := bodyCt.map Prod.fst }
  let tr := transport req
  match tr.err with
  | some e =>
    if isRedirectError e then compareStage r method path tr.resp else .fatal
  | none => compareStage r method path tr.resp

/-- Go `hit.Request.Execute`: encode the body first when one is present — an
encoding error is returned as-is, before any request is constructed or
dispatched — then run the remaining stages. -/
def Request.Execute (transport : HttpReqM → TranResult) (r : RequestD)
    (method path : String) : ExecResult :=
  match r.body with
  | some bs =>
    match bs.body with
    | .error e => .bodyError e
    | .ok bodyStr =>
      execAfterBody transport r method path (some (bodyStr, bs.typeOf))
  | none => execAfterBody transport r method path none

/-! ## Helper lemmas -/

theorem eq_empty_of_len_zero (s : String) (h : s.length = 0) : s = "" := by
  cases s with
  | mk data =>
    cases data with
    | nil => rfl
    | cons c t => simp [String.length] at h

theorem append_eq_empty_iff (a b : String) : a ++ b = "" ↔ a = "" ∧ b = "" := by
  constructor
  · intro h
    have hl := congrArg String.length h
    rw [String.length_append] at hl
    have ha : a.length = 0 := by
      have : String.length "" = 0 := rfl
      omega
    have hb : b.length = 0 := by
      have : String.length "" = 0 := rfl
      omega
    exact ⟨eq_empty_of_len_zero a ha, eq_empty_of_len_zero b hb⟩
  · rintro ⟨ha, hb⟩
    rw [ha, hb]
    rfl

theorem ne_empty_of_right (a b : String) (h : b ≠ "") : a ++ b ≠ "" := by
  intro hc
  exact h ((append_eq_empty_iff a b).mp hc).2

theorem ne_empty_of_left (a b : String) (h : a ≠ "") : a ++ b ≠ "" := by
  intro hc
  exact h ((append_eq_empty_iff a b).mp hc).1

theorem headerLine_ne_empty (k v w : String) : headerLine k v w ≠ "" := by
  unfold headerLine
  apply ne_empty_of_right
  decide

theorem statusLine_ne_empty (g w : Int) : statusLine g w ≠ "" := by
  unfold statusLine
  apply ne_empty_of_right
  decide

theorem renderJCmpErr_ne_empty (e : JCmpErr) : renderJCmpErr e ≠ "" := by
  cases e with
  | decodeGot e => exact ne_empty_of_left _ _ (by decide)
  | decodeWant e => exact ne_empty_of_left _ _ (by decide)
  | mismatch g w =>
    unfold renderJCmpErr
    apply ne_empty_of_right
    decide

theorem strConcat_eq_empty {L : List String} (h : ∀ s ∈ L, s ≠ "") :
    strConcat L = "" ↔ L = [] := by
  induction L with
  | nil => simp [strConcat]
  | cons s t _ =>
    simp only [strConcat]
    constructor
    · intro hc
      exact absurd ((append_eq_empty_iff s (strConcat t)).mp hc).1
        (h s (List.mem_cons_self s t))
    · intro hc
      cases hc

theorem entryMsg_none_iff (hh : HdrMap) (p : String × List String) :
    entryMsg hh p = none ↔ hdrGet hh p.1 = firstVal p.2 := by
  unfold entryMsg
  by_cases h : hdrGet hh p.1 = firstVal p.2
  · simp [h]
  · simp [h]

theorem entryMsg_some_eq (hh : HdrMap) (p : String × List String) (s : String)
    (hp : entryMsg hh p = some s) :
    s = headerLine p.1 (hdrGet hh p.1) (firstVal p.2) := by
  unfold entryMsg at hp
  by_cases hc : hdrGet hh p.1 = firstVal p.2
  · simp [hc] at hp
  · simp [hc] at hp
    exact hp.symm

theorem header_compare_none_iff (h hh : HdrMap) :
    Header.Compare h hh = none ↔ h.filterMap (entryMsg hh) = [] := by
  have hL : ∀ s ∈ h.filterMap (entryMsg hh), s ≠ "" := by
    intro s hs
    obtain ⟨p, _, hp⟩ := List.mem_filterMap.mp hs
    rw [entryMsg_some_eq hh p s hp]
    exact headerLine_ne_empty _ _ _
  constructor
  · intro hnone
    by_cases hc : strConcat (h.filterMap (entryMsg hh)) = ""
    · exact (strConcat_eq_empty hL).mp hc
    · unfold Header.Compare at hnone
      rw [if_neg (by simpa using hc)] at hnone
      cases hnone
  · intro hnil
    unfold Header.Compare
    rw [if_pos (by simpa using (strConcat_eq_empty hL).mpr hnil)]

/-! ## Claim theorems -/

/-- Claim C1: Header.Compare is a first-value subset check.  The per-entry
check reports no line exactly when the case-insensitive first observed value
equals the entry's first expected value; Compare returns nil exactly when no
entry of the expectation produces a line (keys only in the observed header
are never consulted); `Header{"A":["x"]}` against observed
`{"A":["x"],"B":["y"]}` yields nil, against `{"A":["z"]}` yields exactly the
one mismatch line naming `A` with observed `"z"` and expected `"x"`, and the
lookup is case-insensitive. -/
theorem header_compare_first_value_subset :
    (∀ (hh : HdrMap) (p : String × List String),
      entryMsg hh p = none ↔ hdrGet hh p.1 = firstVal p.2) ∧
    (∀ (h hh : HdrMap),
      Header.Compare h hh = none ↔ h.filterMap (entryMsg hh) = []) ∧
    Header.Compare [("A", ["x"])] [("A", ["x"]), ("B", ["y"])] = none ∧
    Header.Compare [("A", ["x"])] [("A", ["z"])] =
      some (headerLine "A" "z" "x") ∧
    Header.Compare [("content-type", ["abc"])] [("Content-Type", ["abc"])] =
      none :=
  ⟨entryMsg_none_iff, header_compare_none_iff, by decide, by decide, by decide⟩

/-- Claim C9: the comparison cannot distinguish an absent key from a present
key whose first value is empty: an expectation entry whose first value is
`""`, checked against an observed header lacking that key, produces no
mismatch (looking up the absent key yields `""`). -/
theorem header_empty_first_value_indistinguishable
    (k : String) (rest : List String) (hh : HdrMap)
    (habs : hdrLookup hh (canonicalKey k) = none) :
    entryMsg hh (k, "" :: rest) = none ∧
    Header.Compare [(k, "" :: rest)] hh = none := by
  have hget : hdrGet hh k = "" := by
    unfold hdrGet
    rw [habs]
  have h1 : entryMsg hh (k, "" :: rest) = none := by
    rw [entryMsg_none_iff]
    simpa [firstVal] using hget
  refine ⟨h1, ?_⟩
  rw [header_compare_none_iff]
  simp [h1]

/-- Claim C9 witness: instantiated at key `A` and the empty observed
header. -/
theorem header_empty_first_value_indistinguishable_witness :
    entryMsg [] ("A", [""]) = none ∧
    Header.Compare [("A", [""])] [] = none :=
  header_empty_first_value_indistinguishable "A" [] [] rfl

theorem compareStatus_some_eq (r : ResponseExp) (status : Int) (s : String)
    (h : Response.CompareStatus r status = some s) :
    s = statusLine status r.status := by
  unfold Response.CompareStatus at h
  by_cases hc : status ≠ r.status
  · rw [if_pos hc] at h
    exact (Option.some.inj h).symm
  · rw [if_neg hc] at h
    cases h

theorem header_compare_some_ne (h hh : HdrMap) (m : String)
    (hs : Header.Compare h hh = some m) : m ≠ "" := by
  unfold Header.Compare at hs
  by_cases hc : strConcat (h.filterMap (entryMsg hh)) = ""
  · rw [if_pos hc] at hs
    cases hs
  · rw [if_neg hc] at hs
    rw [← Option.some.inj hs]
    exact hc

theorem statusPart_empty_iff (r : ResponseExp) (res : RespObs) :
    statusPart r res = "" ↔ Response.CompareStatus r res.status = none := by
  unfold statusPart
  cases hc : Response.CompareStatus r res.status with
  | none => simp
  | some s =>
    simp only [Option.getD_some]
    constructor
    · intro hemp
      exact absurd hemp (by
        rw [compareStatus_some_eq r res.status s hc]
        exact statusLine_ne_empty _ _)
    · intro hx
      cases hx

theorem headerPart_empty_iff (r : ResponseExp) (res : RespObs) :
    headerPart r res = "" ↔
      ∀ h, r.header = some h → Header.Compare h res.header = none := by
  unfold headerPart
  cases hh : r.header with
  | none => simp
  | some h =>
    simp only [hh]
    cases hc : Header.Compare h res.header with
    | none => simp [hc]
    | some m =>
      simp only [Option.getD_some]
      constructor
      · intro hemp
        exact absurd hemp (header_compare_some_ne h res.header m hc)
      · intro hall
        have := hall h rfl
        rw [hc] at this
        cases this

theorem bodyPart_empty_iff (r : ResponseExp) (res : RespObs) :
    bodyPart r res = "" ↔
      ∀ b, r.body = some b → JSONBody.Compare b res.body = none := by
  unfold bodyPart
  cases hb : r.body with
  | none => simp
  | some b =>
    simp only [hb]
    cases hc : JSONBody.Compare b res.body with
    | none => simp [hc]
    | some e =>
      constructor
      · intro hemp
        exact absurd hemp (renderJCmpErr_ne_empty e)
      · intro hall
        have := hall b rfl
        rw [hc] at this
        cases this

theorem response_compare_parts (r : ResponseExp) (res : RespObs) :
    Response.Compare r res =
      if statusPart r res ++ headerPart r res ++ bodyPart r res = ""
      then none
      else some (statusPart r res ++ headerPart r res ++ bodyPart r res) :=
  rfl

theorem response_compare_none_iff (r : ResponseExp) (res : RespObs) :
    Response.Compare r res = none ↔
      (Response.CompareStatus r res.status = none ∧
       (∀ h, r.header = some h → Header.Compare h res.header = none) ∧
       (∀ b, r.body = some b → JSONBody.Compare b res.body = none)) := by
  rw [response_compare_parts]
  by_cases hc :
      statusPart r res ++ headerPart r res ++ bodyPart r res = ""
  · rw [if_pos hc]
    obtain ⟨h1, h23⟩ := (append_eq_empty_iff _ _).mp hc
    obtain ⟨h2, h3⟩ := (append_eq_empty_iff _ _).mp h1
    simp only [true_iff]
    exact ⟨(statusPart_empty_iff r res).mp h2,
      (headerPart_empty_iff r res).mp h3,
      (bodyPart_empty_iff r res).mp h23⟩
  · rw [if_neg hc]
    constructor
    · intro hx
      cases hx
    · rintro ⟨h1, h2, h3⟩
      exact absurd
        (by
          rw [(statusPart_empty_iff r res).mpr h1,
            (headerPart_empty_iff r res).mpr h2,
            (bodyPart_empty_iff r res).mpr h3]
          rfl)
        hc

theorem response_compare_some_eq (r : ResponseExp) (res : RespObs)
    (m : String) (hm : Response.Compare r res = some m) :
    m = statusPart r res ++ headerPart r res ++ bodyPart r res := by
  rw [response_compare_parts] at hm
  by_cases hc :
      statusPart r res ++ headerPart r res ++ bodyPart r res = ""
  · rw [if_pos hc] at hm
    cases hm
  · rw [if_neg hc] at hm
    exact (Option.some.inj hm).symm

/-- Claim C2: Response.Compare performs the status, header (when present)
and body (when present) checks independently, concatenating every failure
message into one aggregated error, and returns nil exactly when no
individual check reports an error. -/
theorem response_compare_aggregates (r : ResponseExp) (res : RespObs) :
    (Response.Compare r res = none ↔
      (Response.CompareStatus r res.status = none ∧
       (∀ h, r.header = some h → Header.Compare h res.header = none) ∧
       (∀ b, r.body = some b → JSONBody.Compare b res.body = none))) ∧
    (∀ m, Response.Compare r res = some m →
      m = statusPart r res ++ headerPart r res ++ bodyPart r res) :=
  ⟨response_compare_none_iff r res,
    fun m hm => response_compare_some_eq r res m hm⟩

/-- Claim C2 witness: a concrete mismatching exchange, the aggregate message
equal to the concatenation of the three fragments. -/
theorem response_compare_aggregates_witness :
    statusLine 404 200 =
      statusPart ⟨200, none, none⟩ ⟨404, [], ""⟩ ++
        headerPart ⟨200, none, none⟩ ⟨404, [], ""⟩ ++
        bodyPart ⟨200, none, none⟩ ⟨404, [], ""⟩ :=
  (response_compare_aggregates ⟨200, none, none⟩ ⟨404, [], ""⟩).2
    (statusLine 404 200) (by decide)

/-- Claim C8: a status-only expectation checks only the status; for every
observed response it returns nil when the status is 200 regardless of the
observed header and body (the body stream is not consulted), and exactly
the one status mismatch line otherwise. -/
theorem status_only_expectation_checks_status :
    (∀ res : RespObs,
      Response.Compare ⟨200, none, none⟩ res =
        if res.status = 200 then none
        else some (statusLine res.status 200)) ∧
    Response.Compare ⟨200, none, none⟩ ⟨404, [("X", ["y"])], "junk"⟩ =
      some (statusLine 404 200) := by
  constructor
  · intro res
    rw [response_compare_parts]
    have hh : headerPart ⟨200, none, none⟩ res = "" := rfl
    have hb : bodyPart ⟨200, none, none⟩ res = "" := rfl
    rw [hh, hb]
    by_cases hs : res.status = 200
    · have hst : statusPart ⟨200, none, none⟩ res = "" := by
        unfold statusPart Response.CompareStatus
        rw [if_neg (by simpa using hs)]
        rfl
      have hz : ("" ++ "" ++ "" : String) = "" := rfl
      rw [hst, if_pos hz, if_pos hs]
    · have hst : statusPart ⟨200, none, none⟩ res =
          statusLine res.status 200 := by
        unfold statusPart Response.CompareStatus
        rw [if_pos (by simpa using hs)]
        rfl
      rw [hst, String.append_empty, String.append_empty,
        if_neg (statusLine_ne_empty res.status 200), if_neg hs]
  · decide


/-- Claim C3: JSONBody.Compare decodes both the observed stream and the
expectation's own encoded form into generic string-keyed values with
arbitrary-precision number decoding, and succeeds exactly when the two
decoded values are deeply structurally equal; a whitespace-only stream is
`io.EOF`, tolerated as the empty map, while any other decode error on the
observed side is surfaced as its own error, distinct from a value mismatch;
number tokens are preserved exactly (`1.50` stays `1.50`, which float64
decoding would collapse), and an empty body compares clean against an empty
expectation. -/
theorem jsonbody_compare_structural_equality :
    (∀ (b : JSONBody) (r : String) (got want : List (String × JVal)),
      decodeMap r = .ok got → decodeMap (jsonMarshal b) = .ok want →
      (JSONBody.Compare b r = none ↔ mapEq got want = true)) ∧
    decodeMap "" = .ok [] ∧
    (∀ (b : JSONBody) (r : String) (e : String),
      decodeMap r = .error e →
      JSONBody.Compare b r = some (.decodeGot e)) ∧
    (∀ (e : String) (g w : List (String × JVal)),
      JCmpErr.decodeGot e ≠ JCmpErr.mismatch g w) ∧
    decodeMap "\x7b\"a\":1.50\x7d" = .ok [("a", JVal.num "1.50")] ∧
    JSONBody.Compare [] "" = none ∧
    JSONBody.Compare [("b", GoVal.int 1), ("a", GoVal.str "x")]
      "\x7b\"a\":\"x\",\"b\":1\x7d" = none ∧
    JSONBody.Compare [("a", GoVal.int 1)] "\x7b\"a\":1.0\x7d" =
      some (JCmpErr.mismatch [("a", JVal.num "1.0")] [("a", JVal.num "1")]) := by
  refine ⟨?_, rfl, ?_, ?_, rfl, rfl, rfl, rfl⟩
  · intro b r got want hg hw
    unfold JSONBody.Compare
    rw [hg, hw]
    by_cases he : mapEq got want = true
    · simp [he]
    · simp [he]
  · intro b r e he
    unfold JSONBody.Compare
    rw [he]
  · intro e g w hx
    cases hx

/-- Claim C3 witness: the characterization instantiated at a concrete
expectation and observed stream, both hypotheses discharged by
evaluation. -/
theorem jsonbody_compare_structural_equality_witness :
    JSONBody.Compare [("a", GoVal.str "x")] "\x7b\"a\":\"x\"\x7d" = none ↔
      mapEq [("a", JVal.str "x")] [("a", JVal.str "x")] = true :=
  jsonbody_compare_structural_equality.1 [("a", GoVal.str "x")]
    "\x7b\"a\":\"x\"\x7d" [("a", JVal.str "x")] [("a", JVal.str "x")]
    rfl rfl

/-- Claim C4: FormBody.Body deterministically url-form-encodes the mapping
with keys sorted lexicographically and each key's values in sequence order
(the example input is deliberately unsorted), and the returned error is
always nil. -/
theorem formbody_encode_sorted_deterministic :
    FormBody.Body [("A", ["foo"]), ("C", ["123"]), ("B", ["bar", "baz"])] =
      .ok "A=foo&B=bar&B=baz&C=123" ∧
    (∀ b : FormBody, ∃ sOut, FormBody.Body b = Except.ok sOut) :=
  ⟨rfl, fun b => ⟨urlValuesEncode b, rfl⟩⟩

/-- Claim C5: MultipartBody.Body always uses the fixed boundary token
`testboundary` — every successful encoding ends with its closing line — and
the single-field body `{"A":["foo"]}` encodes to exactly the claimed byte
stream with nil error. -/
theorem multipartbody_fixed_boundary :
    MultipartBody.Body [("A", [MpVal.str "foo"])] =
      .ok "--testboundary\r\nContent-Disposition: form-data; name=\"A\"\r\n\r\nfoo\r\n--testboundary--\r\n" ∧
    (∀ (b : MultipartBody) (sOut : String),
      MultipartBody.Body b = .ok sOut →
      ∃ t, sOut = t ++ "\r\n--" ++ boundary ++ "--\r\n") ∧
    boundary = "testboundary" := by
  refine ⟨rfl, ?_, rfl⟩
  intro b sOut hok
  unfold MultipartBody.Body at hok
  cases hp : mpParts (flattenMp b) true with
  | error e =>
    rw [hp] at hok
    cases hok
  | ok t =>
    rw [hp] at hok
    simp only [Except.map] at hok
    exact ⟨t, (Except.ok.inj hok).symm⟩

/-- Claim C5 witness: the suffix property instantiated at the concrete
single-field body. -/
theorem multipartbody_fixed_boundary_witness :
    ∃ t,
      "--testboundary\r\nContent-Disposition: form-data; name=\"A\"\r\n\r\nfoo\r\n--testboundary--\r\n" =
        t ++ "\r\n--" ++ boundary ++ "--\r\n" :=
  multipartbody_fixed_boundary.2.1 [("A", [MpVal.str "foo"])] _ rfl

/-- Claim C6: a MultipartBody value that is neither a string nor a hit.File
makes Body return a formatted error naming the offending key and the
value's dynamic type, and Request.Execute returns any body-encoding error
as-is before consulting the transport at all (the outcome is the same for
every transport). -/
theorem multipart_bad_value_no_network :
    (∀ k ty : String,
      MultipartBody.Body [(k, [MpVal.other ty])] =
        .error ("hit: " ++ goQuote k ++ " containts unsupported type " ++
          ty ++
          ". Please use only strings or hit.Files inside MultipartBody.")) ∧
    (∀ (t1 t2 : HttpReqM → TranResult) (r : RequestD) (method path : String)
      (bs : Bodyer) (e : String),
      r.body = some bs → Bodyer.body bs = .error e →
      Request.Execute t1 r method path = .bodyError e ∧
      Request.Execute t1 r method path = Request.Execute t2 r method path) := by
  constructor
  · intro k ty
    rfl
  · intro t1 t2 r method path bs e hb he
    unfold Request.Execute
    simp [hb, he]

/-- Claim C6 witness: a concrete request carrying an unsupported multipart
value, executed against two different transports. -/
theorem multipart_bad_value_no_network_witness :
    Request.Execute (fun _ => ⟨none, none⟩)
        ⟨none, some (.multipart [("A", [MpVal.other "int"])]),
          ⟨200, none, none⟩⟩ "POST" "/x" =
      .bodyError (mpFieldErr "A" "int") ∧
    Request.Execute (fun _ => ⟨none, none⟩)
        ⟨none, some (.multipart [("A", [MpVal.other "int"])]),
          ⟨200, none, none⟩⟩ "POST" "/x" =
      Request.Execute (fun _ => ⟨some ⟨200, [], ""⟩, none⟩)
        ⟨none, some (.multipart [("A", [MpVal.other "int"])]),
          ⟨200, none, none⟩⟩ "POST" "/x" :=
  multipart_bad_value_no_network.2 (fun _ => ⟨none, none⟩)
    (fun _ => ⟨some ⟨200, [], ""⟩, none⟩)
    ⟨none, some (.multipart [("A", [MpVal.other "int"])]), ⟨200, none, none⟩⟩
    "POST" "/x" (.multipart [("A", [MpVal.other "int"])])
    (mpFieldErr "A" "int") rfl rfl

/-- Observed value slice of a key in a request header. -/
def getVals (rh : HdrMap) (c : String) : List String :=
  (hdrLookup rh c).getD []

/-- Number of occurrences of value `w` under key `c` in a request header. -/
def countV (rh : HdrMap) (c w : String) : Nat :=
  (getVals rh c).count w

/-- Number of occurrences of value `w` in an expectation header's entries
whose key canonicalizes to `c`. -/
def hCount : HdrMap → String → String → Nat
  | [], _, _ => 0
  | (k, vs) :: t, c, w =>
    (if canonicalKey k = c then vs.count w else 0) + hCount t c w

theorem getVals_hdrAddRaw (rh : HdrMap) (c v q : String) :
    getVals (hdrAddRaw rh c v) q =
      if q = c then getVals rh q ++ [v] else getVals rh q := by
  induction rh with
  | nil =>
    by_cases hqc : q = c
    · subst hqc
      simp [getVals, hdrAddRaw, hdrLookup]
    · have hcq : ¬ c = q := fun hh => hqc hh.symm
      simp [getVals, hdrAddRaw, hdrLookup, hqc, hcq]
  | cons p t ih =>
    obtain ⟨k2, vs⟩ := p
    by_cases hk2c : k2 = c
    · subst hk2c
      by_cases hqk : q = k2
      · subst hqk
        simp [getVals, hdrAddRaw, hdrLookup]
      · have hkq : ¬ k2 = q := fun hh => hqk hh.symm
        simp [getVals, hdrAddRaw, hdrLookup, hqk, hkq]
    · by_cases hkq : k2 = q
      · subst hkq
        have hqc : ¬ k2 = c := hk2c
        simp [getVals, hdrAddRaw, hdrLookup, hk2c, hqc]
      · simp only [getVals, hdrAddRaw, hdrLookup, if_neg hk2c, if_neg hkq]
        exact ih

theorem countV_hdrAdd (rh : HdrMap) (k v c w : String) :
    countV (hdrAdd rh k v) c w =
      countV rh c w +
        (if canonicalKey k = c then (if v = w then 1 else 0) else 0) := by
  unfold countV hdrAdd
  rw [getVals_hdrAddRaw]
  by_cases hc : c = canonicalKey k
  · rw [if_pos hc, List.count_append, hc, if_pos rfl]
    by_cases hvw : v = w
    · subst hvw
      simp
    · have hb : ¬ w = v := fun hh => hvw hh.symm
      simp [List.count_singleton', hvw, hb]
  · rw [if_neg hc, if_neg (fun hh => hc hh.symm)]
    omega

theorem countV_addVals (k : String) (vs : List String) (rh : HdrMap)
    (c w : String) :
    countV (addVals k vs rh) c w =
      countV rh c w + (if canonicalKey k = c then vs.count w else 0) := by
  induction vs generalizing rh with
  | nil => simp [addVals]
  | cons v vs ih =>
    rw [addVals, ih, countV_hdrAdd]
    by_cases hck : canonicalKey k = c
    · simp only [if_pos hck, List.count_cons]
      by_cases hvw : v = w
      · subst hvw
        simp
        omega
      · have hb : (v == w) = false := by
          simp [hvw]
        simp [hb, hvw]
    · simp [if_neg hck]

/-- Claim C7: Header.AddTo attaches every value of every key of the
expectation header to the outbound request header, multiplicities
preserved: under any canonical key, the count of any value grows by exactly
the number of times the header set carries it; concretely, both values of a
two-valued key are attached. -/
theorem header_addto_preserves_multiplicities :
    (∀ (h rh : HdrMap) (c w : String),
      countV (Header.AddTo h rh) c w = countV rh c w + hCount h c w) ∧
    Header.AddTo [("A", ["x", "y"])] [] = [("A", ["x", "y"])] := by
  constructor
  · intro h
    induction h with
    | nil =>
      intro rh c w
      simp [Header.AddTo, hCount]
    | cons p t ih =>
      obtain ⟨k, vs⟩ := p
      intro rh c w
      rw [Header.AddTo, ih, countV_addVals, hCount]
      omega
  · decide


/-- Claim C10: Request.Execute classifies a transport error by substring
matching on its message: with a transport yielding a response together with
an error `e`, the run aborts fatally exactly when `e`'s message does not
contain `"just a redirect"`, and when it does contain that text — whatever
the real cause of the error — execution proceeds to the response
comparison; the classifier is literally the substring test. -/
theorem redirect_classified_by_substring
    (r : RequestD) (method path : String) (resp : RespObs) (e : String)
    (hbody : r.body = none) :
    (Request.Execute (fun _ => ⟨some resp, some e⟩) r method path =
        .fatal ↔ isRedirectError e = false) ∧
    (isRedirectError e = true →
      Request.Execute (fun _ => ⟨some resp, some e⟩) r method path =
        match Response.Compare r.want resp with
        | none => .success
        | some c => .failure (reqContext r method path ++ "\n" ++ c)) ∧
    isRedirectError e = strContains e "just a redirect" := by
  have hexec :
      Request.Execute (fun _ => ⟨some resp, some e⟩) r method path =
        if isRedirectError e then compareStage r method path (some resp)
        else .fatal := by
    unfold Request.Execute
    rw [hbody]
    rfl
  refine ⟨?_, ?_, rfl⟩
  · cases hred : isRedirectError e with
    | true =>
      rw [hexec, hred, if_pos rfl]
      unfold compareStage
      cases hcm : Response.Compare r.want resp with
      | none => simp [hcm]
      | some c => simp [hcm]
    | false =>
      rw [hexec, hred]
      simp
  · intro hred
    rw [hexec, hred, if_pos rfl]
    unfold compareStage
    cases hcm : Response.Compare r.want resp with
    | none => simp [hcm]
    | some c => simp [hcm]

/-- Claim C10 witness: instantiated at a transport fault whose message
happens to contain the redirect marker, against a trivial expectation. -/
theorem redirect_classified_by_substring_witness :
    (Request.Execute
        (fun _ => ⟨some ⟨200, [], ""⟩, some "dial tcp: just a redirect ok"⟩)
        ⟨none, none, ⟨200, none, none⟩⟩ "GET" "/p" = .fatal ↔
      isRedirectError "dial tcp: just a redirect ok" = false) ∧
    (isRedirectError "dial tcp: just a redirect ok" = true →
      Request.Execute
          (fun _ => ⟨some ⟨200, [], ""⟩, some "dial tcp: just a redirect ok"⟩)
          ⟨none, none, ⟨200, none, none⟩⟩ "GET" "/p" =
        match Response.Compare ⟨200, none, none⟩ ⟨200, [], ""⟩ with
        | none => .success
        | some c =>
          .failure (reqContext ⟨none, none, ⟨200, none, none⟩⟩ "GET" "/p" ++
            "\n" ++ c)) ∧
    isRedirectError "dial tcp: just a redirect ok" =
      strContains "dial tcp: just a redirect ok" "just a redirect" :=
  redirect_classified_by_substring ⟨none, none, ⟨200, none, none⟩⟩ "GET" "/p"
    ⟨200, [], ""⟩ "dial tcp: just a redirect ok" rfl

end Hit
